import Mathlib

/-!
Shallow embedding of the `psbt-coordinator` repository (2-of-3 multisig PSBT
toolkit): the data model shared by `src/lib.rs`, the PSBT finalizer
(`src/bin/finalizer.rs`), the signer engine (`src/bin/signer.rs`) and the
transaction assembler (`src/bin/coordinator.rs`).

Modelling conventions:
- machine bytes are `Nat` and byte strings are `List Nat`; serialized public
  keys, signatures and scripts are byte strings;
- Rust `BTreeMap`s (`partial_sigs`, `bip32_derivation`) are association lists
  with overwrite-on-insert.  Every consumer in the source either searches the
  whole map or re-sorts its entries, so iteration order is immaterial;
- fallible Rust code (`Result`, `std::process::exit(1)` after an error print,
  `panic!` inside `Amount` arithmetic) is `Except`/`Option`;
- cryptographic primitives (BIP32 child derivation, secp256k1 signing, SHA-256)
  are opaque function parameters: every claim treated here concerns control
  flow, ordering and data plumbing around those primitives, never their
  number-theoretic content.
-/

namespace PsbtModel

/-- Serialized byte strings (compressed public keys, DER signatures, scripts). -/
abbrev Bytes := List Nat

/-- Model of `bitcoin::TxOut`: an amount in satoshis plus an output script. -/
structure TxOut where
  value : Nat
  script_pubkey : Bytes
  deriving DecidableEq

/-- Model of `bitcoin::TxIn` as the coordinator builds it (empty `script_sig`/witness). -/
structure TxIn where
  txid : Nat
  vout : Nat
  sequence : Nat
  deriving DecidableEq

/-- Model of the `bitcoin::Transaction` skeleton. -/
structure Tx where
  version : Nat
  lock_time : Nat
  input : List TxIn
  output : List TxOut
  deriving DecidableEq

/-- One per-input map section of a PSBT (`bitcoin::psbt::Input`), restricted to
the fields this repository reads or writes.  `bip32_derivation` maps a
serialized child public key to `(master fingerprint, full derivation path)`;
`partial_sigs` maps a serialized public key to a serialized signature
(DER bytes plus the sighash-type byte, i.e. the output of
`EcdsaSignature::serialize`). -/
structure PsbtInput where
  witness_utxo : Option TxOut
  witness_script : Option Bytes
  bip32_derivation : List (Bytes × Nat × List Nat)
  partial_sigs : List (Bytes × Bytes)
  final_script_witness : Option (List Bytes)
  deriving DecidableEq

/-- Model of `bitcoin::psbt::Psbt`: the unsigned transaction plus per-input sections. -/
structure Psbt where
  unsigned_tx : Tx
  inputs : List PsbtInput
  deriving DecidableEq

/-! ### Lexicographic byte-string comparison

`finalizer.rs` sorts partial signatures with
`sigs.sort_by(|a, b| a.0.inner.serialize().cmp(&b.0.inner.serialize()))`.
Rust's `cmp` on byte slices is lexicographic, a strict prefix comparing
smaller; `bytesLe` is the corresponding (total, transitive) `≤`. -/

/-- Lexicographic `≤` on byte strings, matching Rust slice `Ord`. -/
def bytesLe : Bytes → Bytes → Bool
  | [], _ => true
  | _ :: _, [] => false
  | a :: as, b :: bs => if a < b then true else if b < a then false else bytesLe as bs

theorem bytesLe_total : ∀ a b : Bytes, bytesLe a b = true ∨ bytesLe b a = true := by
  intro a
  induction a with
  | nil => intro b; left; rfl
  | cons x xs ih =>
    intro b
    cases b with
    | nil => right; rfl
    | cons y ys =>
      rcases Nat.lt_trichotomy x y with h | h | h
      · left; simp [bytesLe, h]
      · subst h
        rcases ih ys with h2 | h2
        · left; simp [bytesLe, h2]
        · right; simp [bytesLe, h2]
      · right; simp [bytesLe, h]

theorem bytesLe_trans :
    ∀ a b c : Bytes, bytesLe a b = true → bytesLe b c = true → bytesLe a c = true := by
  intro a
  induction a with
  | nil => intro b c _ _; rfl
  | cons x xs ih =>
    intro b c hab hbc
    cases b with
    | nil => simp [bytesLe] at hab
    | cons y ys =>
      cases c with
      | nil => simp [bytesLe] at hbc
      | cons z zs =>
        simp only [bytesLe] at hab hbc ⊢
        by_cases hxy : x < y
        · by_cases hyz : y < z
          · have hxz : x < z := Nat.lt_trans hxy hyz
            simp [hxz]
          · by_cases hzy : z < y
            · simp [hyz, hzy] at hbc
            · have hyz' : y = z := Nat.le_antisymm (Nat.le_of_not_lt hzy) (Nat.le_of_not_lt hyz)
              subst hyz'
              simp [hxy]
        · by_cases hyx : y < x
          · simp [hxy, hyx] at hab
          · have hxy' : x = y := Nat.le_antisymm (Nat.le_of_not_lt hyx) (Nat.le_of_not_lt hxy)
            subst hxy'
            by_cases hyz : x < z
            · simp [hyz]
            · by_cases hzy : z < x
              · simp [hyz, hzy] at hbc
              · simp [hxy, hyx] at hab
                simp only [if_neg hyz, if_neg hzy] at hbc ⊢
                exact ih ys zs hab hbc

/-- Comparison used by the finalizer's `sort_by`: ascending raw serialized
bytes of the public key that owns each partial signature. -/
def sigLE (p q : Bytes × Bytes) : Prop := bytesLe p.1 q.1 = true

instance : DecidableRel sigLE := fun p q =>
  inferInstanceAs (Decidable (bytesLe p.1 q.1 = true))

instance : IsTotal (Bytes × Bytes) sigLE := ⟨fun p q => bytesLe_total p.1 q.1⟩

instance : IsTrans (Bytes × Bytes) sigLE :=
  ⟨fun _ _ _ hab hbc => bytesLe_trans _ _ _ hab hbc⟩

/-! ### Finalizer (`src/bin/finalizer.rs`) -/

/-- Failure modes of the finalizer run.  `insufficientSignatures i got need`
models the `eprintln` + `std::process::exit(1)` at the signature-count check
(`"Input {i} has insufficient signatures ({got}/2)"`); `missingWitnessScript`
models the `ok_or("Missing witness script")?` inside `finalize_psbt`. -/
inductive FinalizerError where
  | insufficientSignatures (inputIndex got need : Nat)
  | missingWitnessScript
  deriving DecidableEq

/-- Model of `finalize_psbt`'s per-input body (`finalizer.rs` lines 126-165): require a
witness script, sort the partial signatures by serialized public key, keep the
first 2, build the stack `<empty> <sig> <sig> <script>`, store it as the final
witness and clear `partial_sigs`, `bip32_derivation` and `witness_script`
while keeping `witness_utxo`. -/
def finalizeInput (inp : PsbtInput) : Except FinalizerError PsbtInput :=
  match inp.witness_script with
  | none => .error .missingWitnessScript
  | some ws =>
    let sorted := List.insertionSort sigLE inp.partial_sigs
    let selected := sorted.take 2
    let witness : List Bytes := [[]] ++ selected.map Prod.snd ++ [ws]
    .ok { inp with
          final_script_witness := some witness
          partial_sigs := []
          bip32_derivation := []
          witness_script := none }

/-- Effectful map over a list in `Except`, first error wins (the semantics of a
Rust `for` loop whose body can `?`-return). -/
def mapE {ε α β : Type} (f : α → Except ε β) : List α → Except ε (List β)
  | [] => .ok []
  | a :: l =>
    match f a with
    | .error e => .error e
    | .ok b =>
      match mapE f l with
      | .error e => .error e
      | .ok bs => .ok (b :: bs)

/-- Model of `finalize_psbt` (`finalizer.rs` lines 123-168): finalize every input; an
error aborts the whole call and no PSBT is returned. -/
def finalizePsbt (psbt : Psbt) : Except FinalizerError Psbt :=
  match mapE finalizeInput psbt.inputs with
  | .error e => .error e
  | .ok inputs => .ok { psbt with inputs := inputs }

/-- The signature-count pre-check of the finalizer's `main` (lines 60-74):
scan inputs in order, abort at the first one holding fewer than 2 partial
signatures. -/
def checkSignaturesFrom : Nat → List PsbtInput → Except FinalizerError Unit
  | _, [] => .ok ()
  | i, inp :: rest =>
    if inp.partial_sigs.length < 2 then
      .error (.insufficientSignatures i inp.partial_sigs.length 2)
    else checkSignaturesFrom (i + 1) rest

/-- The finalizer pipeline of `main` up to the finalized PSBT: the
signature-count check over all inputs (step 2), then `finalize_psbt`
(step 3).  Extraction and hex serialization of the final transaction
(step 4) are downstream of the finalized PSBT and not consulted here. -/
def finalizerRun (psbt : Psbt) : Except FinalizerError Psbt :=
  match checkSignaturesFrom 0 psbt.inputs with
  | .error e => .error e
  | .ok _ => finalizePsbt psbt

/-- The signature-count scan aborts at the first deficient input, reporting its
index and its signature count. -/
theorem checkSignaturesFrom_error (pre post : List PsbtInput) (bad : PsbtInput)
    (hbad : bad.partial_sigs.length < 2)
    (hpre : ∀ p ∈ pre, 2 ≤ p.partial_sigs.length) :
    ∀ i, checkSignaturesFrom i (pre ++ bad :: post) =
      .error (.insufficientSignatures (i + pre.length) bad.partial_sigs.length 2) := by
  induction pre with
  | nil =>
    intro i
    simp [checkSignaturesFrom, hbad]
  | cons p ps ih =>
    intro i
    have hp : 2 ≤ p.partial_sigs.length := hpre p (by simp)
    simp only [List.cons_append, checkSignaturesFrom]
    rw [if_neg (by omega)]
    have harith : i + 1 + ps.length = i + (p :: ps).length := by
      simp
      omega
    exact harith ▸ ih (fun q hq => hpre q (by simp [hq])) (i + 1)

/-- C1: if some input of the PSBT holds fewer than 2 partial signatures (and it
is the first such input), the finalizer run fails with
`InsufficientSignatures` carrying exactly that input's index and count, and no
finalized PSBT is produced — in particular `finalize_psbt` is never entered,
so no input's `final_witness` is set and no partially finalized PSBT escapes. -/
theorem c1_insufficient_signatures_abort (psbt : Psbt) (pre post : List PsbtInput)
    (bad : PsbtInput) (hsplit : psbt.inputs = pre ++ bad :: post)
    (hbad : bad.partial_sigs.length < 2)
    (hpre : ∀ p ∈ pre, 2 ≤ p.partial_sigs.length) :
    finalizerRun psbt =
      .error (.insufficientSignatures pre.length bad.partial_sigs.length 2) ∧
    ∀ out, finalizerRun psbt ≠ .ok out := by
  have hchk := checkSignaturesFrom_error pre post bad hbad hpre 0
  rw [Nat.zero_add] at hchk
  constructor
  · simp only [finalizerRun, hsplit, hchk]
  · intro out
    simp only [finalizerRun, hsplit, hchk]
    exact fun h => Except.noConfusion h

/-- Witness for C1: a two-input PSBT whose second input has a single partial
signature is rejected with `InsufficientSignatures 1 1 2`. -/
theorem c1_insufficient_signatures_abort_w :
    finalizerRun
      { unsigned_tx := { version := 2, lock_time := 0, input := [], output := [] }
        inputs :=
          [ { witness_utxo := none, witness_script := some [81]
              bip32_derivation := [], final_script_witness := none
              partial_sigs := [([2], [20]), ([3], [30])] },
            { witness_utxo := none, witness_script := some [81]
              bip32_derivation := [], final_script_witness := none
              partial_sigs := [([5], [50])] } ] } =
      .error (.insufficientSignatures 1 1 2) :=
  (c1_insufficient_signatures_abort _
    [ { witness_utxo := none, witness_script := some [81]
        bip32_derivation := [], final_script_witness := none
        partial_sigs := [([2], [20]), ([3], [30])] } ] []
    { witness_utxo := none, witness_script := some [81]
      bip32_derivation := [], final_script_witness := none
      partial_sigs := [([5], [50])] }
    rfl (by decide) (by decide)).1

/-- C2: finalizing an input holding a witness script succeeds, and the final
witness stack is exactly: one empty element, then the signatures of the first
2 entries of the partial-signature list sorted ascending by the raw serialized
bytes of their public keys, then the raw witness-script bytes.  The sort is a
genuine ascending-by-key-bytes permutation of the input's partial signatures,
and with exactly 3 partial signatures present the stack has exactly 4
elements (the third signature is discarded). -/
theorem c2_witness_stack_shape (inp : PsbtInput) (ws : Bytes)
    (hws : inp.witness_script = some ws) :
    ∃ out, finalizeInput inp = .ok out ∧
      out.final_script_witness =
        some ([[]] ++
          ((List.insertionSort sigLE inp.partial_sigs).take 2).map Prod.snd ++ [ws]) ∧
      List.Sorted sigLE (List.insertionSort sigLE inp.partial_sigs) ∧
      List.Perm (List.insertionSort sigLE inp.partial_sigs) inp.partial_sigs ∧
      (inp.partial_sigs.length = 3 →
        ∀ w, out.final_script_witness = some w → w.length = 4) := by
  refine ⟨{ inp with
      final_script_witness :=
        some ([[]] ++
          ((List.insertionSort sigLE inp.partial_sigs).take 2).map Prod.snd ++ [ws])
      partial_sigs := []
      bip32_derivation := []
      witness_script := none }, ?_, rfl, ?_, ?_, ?_⟩
  · simp only [finalizeInput, hws]
  · exact List.sorted_insertionSort sigLE inp.partial_sigs
  · exact List.perm_insertionSort sigLE inp.partial_sigs
  · intro h3 w hw
    have hw' : w = [[]] ++
        ((List.insertionSort sigLE inp.partial_sigs).take 2).map Prod.snd ++ [ws] :=
      (Option.some.inj hw).symm
    subst hw'
    simp [List.length_take, List.length_insertionSort, h3]

/-- Witness for C2: an input carrying 3 partial signatures whose keys arrive
unsorted is finalized into the 4-element stack that keeps the 2
lowest-sorted-key signatures. -/
theorem c2_witness_stack_shape_w :
    ∃ out,
      finalizeInput
        { witness_utxo := none, witness_script := some [81, 82]
          bip32_derivation := [], final_script_witness := none
          partial_sigs := [([3], [30]), ([1], [10]), ([2], [20])] } = .ok out ∧
      out.final_script_witness =
        some ([[]] ++
          ((List.insertionSort sigLE
            [([3], [30]), ([1], [10]), ([2], [20])]).take 2).map Prod.snd ++ [[81, 82]]) ∧
      List.Sorted sigLE (List.insertionSort sigLE [([3], [30]), ([1], [10]), ([2], [20])]) ∧
      List.Perm (List.insertionSort sigLE [([3], [30]), ([1], [10]), ([2], [20])])
        [([3], [30]), ([1], [10]), ([2], [20])] ∧
      (([([3], [30]), ([1], [10]), ([2], [20])] : List (Bytes × Bytes)).length = 3 →
        ∀ w, out.final_script_witness = some w → w.length = 4) :=
  c2_witness_stack_shape
    { witness_utxo := none, witness_script := some [81, 82]
      bip32_derivation := [], final_script_witness := none
      partial_sigs := [([3], [30]), ([1], [10]), ([2], [20])] }
    [81, 82] rfl

theorem mapE_ok_length {ε α β : Type} (f : α → Except ε β) :
    ∀ (l : List α) (l' : List β), mapE f l = .ok l' → l'.length = l.length := by
  intro l
  induction l with
  | nil =>
    intro l' h
    simp only [mapE] at h
    cases h
    rfl
  | cons a t ih =>
    intro l' h
    simp only [mapE] at h
    cases hfa : f a with
    | error e => rw [hfa] at h; exact absurd h (by simp)
    | ok b =>
      rw [hfa] at h
      cases hmt : mapE f t with
      | error e => rw [hmt] at h; exact absurd h (by simp)
      | ok bs =>
        rw [hmt] at h
        cases h
        simp [ih bs hmt]

theorem mapE_ok_get {ε α β : Type} (f : α → Except ε β) :
    ∀ (l : List α) (l' : List β), mapE f l = .ok l' →
      ∀ i (hi : i < l.length) (hi' : i < l'.length),
        f (l.get ⟨i, hi⟩) = .ok (l'.get ⟨i, hi'⟩) := by
  intro l
  induction l with
  | nil => intro l' _ i hi; exact absurd hi (by simp)
  | cons a t ih =>
    intro l' h i hi hi'
    simp only [mapE] at h
    cases hfa : f a with
    | error e => rw [hfa] at h; exact absurd h (by simp)
    | ok b =>
      rw [hfa] at h
      cases hmt : mapE f t with
      | error e => rw [hmt] at h; exact absurd h (by simp)
      | ok bs =>
        rw [hmt] at h
        cases h
        cases i with
        | zero => exact hfa
        | succ j => exact ih bs hmt j (Nat.lt_of_succ_lt_succ hi) (Nat.lt_of_succ_lt_succ hi')

theorem mapE_ok_of_forall {ε α β : Type} (f : α → Except ε β) :
    ∀ l : List α, (∀ a ∈ l, ∃ b, f a = .ok b) → ∃ l', mapE f l = .ok l' := by
  intro l
  induction l with
  | nil => intro _; exact ⟨[], rfl⟩
  | cons a t ih =>
    intro h
    obtain ⟨b, hb⟩ := h a (by simp)
    obtain ⟨bs, hbs⟩ := ih (fun x hx => h x (by simp [hx]))
    exact ⟨b :: bs, by simp only [mapE, hb, hbs]⟩

/-- A successfully finalized input has its final witness set, its signature and
derivation maps cleared, its witness script removed and its witness UTXO kept. -/
theorem finalizeInput_ok_frame (inp out : PsbtInput)
    (h : finalizeInput inp = .ok out) :
    out.final_script_witness.isSome = true ∧
    out.partial_sigs = [] ∧ out.bip32_derivation = [] ∧
    out.witness_script = none ∧ out.witness_utxo = inp.witness_utxo := by
  cases hws : inp.witness_script with
  | none => rw [finalizeInput, hws] at h; exact absurd h (by simp)
  | some ws =>
    rw [finalizeInput, hws] at h
    cases h
    simp

/-- A successfully finalized input's final witness is the sorted-selected
signature stack around the stored witness script. -/
theorem finalizeInput_ok_witness (inp out : PsbtInput) (ws : Bytes)
    (hws : inp.witness_script = some ws) (h : finalizeInput inp = .ok out) :
    out.final_script_witness =
      some ([[]] ++
        ((List.insertionSort sigLE inp.partial_sigs).take 2).map Prod.snd ++ [ws]) := by
  rw [finalizeInput, hws] at h
  cases h
  rfl

/-- C5: when `finalize_psbt` succeeds, every input of the result has its
`final_witness` set, empty `partial_sigs`, empty `bip32_derivation`, no
`witness_script`, and a `witness_utxo` identical to the one before
finalization; the unsigned transaction is unchanged. -/
theorem c5_finalized_input_frame (psbt psbt' : Psbt)
    (h : finalizePsbt psbt = .ok psbt') :
    psbt'.unsigned_tx = psbt.unsigned_tx ∧
    psbt'.inputs.length = psbt.inputs.length ∧
    ∀ i (hi : i < psbt.inputs.length) (hi' : i < psbt'.inputs.length),
      (psbt'.inputs.get ⟨i, hi'⟩).final_script_witness.isSome = true ∧
      (psbt'.inputs.get ⟨i, hi'⟩).partial_sigs = [] ∧
      (psbt'.inputs.get ⟨i, hi'⟩).bip32_derivation = [] ∧
      (psbt'.inputs.get ⟨i, hi'⟩).witness_script = none ∧
      (psbt'.inputs.get ⟨i, hi'⟩).witness_utxo = (psbt.inputs.get ⟨i, hi⟩).witness_utxo := by
  rw [finalizePsbt] at h
  cases hm : mapE finalizeInput psbt.inputs with
  | error e => rw [hm] at h; exact absurd h (by simp)
  | ok inputs =>
    rw [hm] at h
    cases h
    refine ⟨rfl, mapE_ok_length finalizeInput psbt.inputs inputs hm, ?_⟩
    intro i hi hi'
    exact finalizeInput_ok_frame _ _
      (mapE_ok_get finalizeInput psbt.inputs inputs hm i hi hi')

/-- Concrete one-input, fully signed PSBT used to witness C5. -/
def c5ExamplePsbt : Psbt :=
  { unsigned_tx := { version := 2, lock_time := 0, input := [], output := [] }
    inputs :=
      [ { witness_utxo := some { value := 100, script_pubkey := [7] }
          witness_script := some [81]
          bip32_derivation := [([9], 5, [48, 0])]
          partial_sigs := [([1], [10]), ([2], [20])]
          final_script_witness := none } ] }

/-- The finalized form of `c5ExamplePsbt`. -/
def c5ExampleFinalized : Psbt :=
  { unsigned_tx := { version := 2, lock_time := 0, input := [], output := [] }
    inputs :=
      [ { witness_utxo := some { value := 100, script_pubkey := [7] }
          witness_script := none
          bip32_derivation := []
          partial_sigs := []
          final_script_witness := some [[], [10], [20], [81]] } ] }

/-- Witness for C5: one fully signed input is finalized; the explicit result
exhibits the stated frame conditions. -/
theorem c5_finalized_input_frame_w :
    c5ExampleFinalized.unsigned_tx = c5ExamplePsbt.unsigned_tx ∧
    c5ExampleFinalized.inputs.length = c5ExamplePsbt.inputs.length ∧
    ∀ i (hi : i < c5ExamplePsbt.inputs.length)
      (hi' : i < c5ExampleFinalized.inputs.length),
      (c5ExampleFinalized.inputs.get ⟨i, hi'⟩).final_script_witness.isSome = true ∧
      (c5ExampleFinalized.inputs.get ⟨i, hi'⟩).partial_sigs = [] ∧
      (c5ExampleFinalized.inputs.get ⟨i, hi'⟩).bip32_derivation = [] ∧
      (c5ExampleFinalized.inputs.get ⟨i, hi'⟩).witness_script = none ∧
      (c5ExampleFinalized.inputs.get ⟨i, hi'⟩).witness_utxo =
        (c5ExamplePsbt.inputs.get ⟨i, hi⟩).witness_utxo :=
  c5_finalized_input_frame c5ExamplePsbt c5ExampleFinalized rfl

/-- C10: the finalizer performs no cryptographic verification: for arbitrary
stored signature bytes, as long as every input holds a witness script and at
least 2 partial signatures, the whole finalizer run succeeds and each final
witness embeds the stored bytes as-is (empty element, the 2 first
sorted-by-key signature byte strings unchanged, the raw script bytes). -/
theorem c10_no_signature_verification (psbt : Psbt)
    (h : ∀ inp ∈ psbt.inputs,
      inp.witness_script.isSome = true ∧ 2 ≤ inp.partial_sigs.length) :
    ∃ psbt', finalizerRun psbt = .ok psbt' ∧
      psbt'.inputs.length = psbt.inputs.length ∧
      ∀ i (hi : i < psbt.inputs.length) (hi' : i < psbt'.inputs.length),
        ∀ ws, (psbt.inputs.get ⟨i, hi⟩).witness_script = some ws →
          (psbt'.inputs.get ⟨i, hi'⟩).final_script_witness =
            some ([[]] ++
              ((List.insertionSort sigLE
                (psbt.inputs.get ⟨i, hi⟩).partial_sigs).take 2).map Prod.snd ++ [ws]) := by
  have hchk : ∀ i (l : List PsbtInput),
      (∀ inp ∈ l, 2 ≤ inp.partial_sigs.length) → checkSignaturesFrom i l = .ok () := by
    intro i l
    induction l generalizing i with
    | nil => intro _; rfl
    | cons a t ih =>
      intro hall
      have ha := hall a (by simp)
      simp only [checkSignaturesFrom]
      rw [if_neg (by omega)]
      exact ih (i + 1) (fun x hx => hall x (by simp [hx]))
  obtain ⟨inputs, hinputs⟩ := mapE_ok_of_forall finalizeInput psbt.inputs (by
    intro inp hinp
    obtain ⟨hws, _⟩ := h inp hinp
    obtain ⟨ws, hws'⟩ := Option.isSome_iff_exists.mp hws
    refine ⟨{ inp with
        final_script_witness :=
          some ([[]] ++
            ((List.insertionSort sigLE inp.partial_sigs).take 2).map Prod.snd ++ [ws])
        partial_sigs := []
        bip32_derivation := []
        witness_script := none }, ?_⟩
    rw [finalizeInput, hws'])
  refine ⟨{ psbt with inputs := inputs }, ?_, ?_, ?_⟩
  · rw [finalizerRun, hchk 0 psbt.inputs (fun inp hinp => (h inp hinp).2), finalizePsbt, hinputs]
  · exact mapE_ok_length finalizeInput psbt.inputs inputs hinputs
  · intro i hi hi' ws hws
    exact finalizeInput_ok_witness _ _ ws hws
      (mapE_ok_get finalizeInput psbt.inputs inputs hinputs i hi hi')

/-- Concrete PSBT whose two "signatures" are junk bytes, used to witness C10. -/
def c10ExamplePsbt : Psbt :=
  { unsigned_tx := { version := 2, lock_time := 0, input := [], output := [] }
    inputs :=
      [ { witness_utxo := some { value := 100, script_pubkey := [7] }
          witness_script := some [81]
          bip32_derivation := []
          partial_sigs := [([2], [255, 255]), ([1], [0])]
          final_script_witness := none } ] }

/-- Witness for C10: an input whose two "signatures" are junk bytes is
finalized successfully, the junk embedded verbatim. -/
theorem c10_no_signature_verification_w :
    ∃ psbt', finalizerRun c10ExamplePsbt = .ok psbt' ∧
      psbt'.inputs.length = c10ExamplePsbt.inputs.length ∧
      ∀ i (hi : i < c10ExamplePsbt.inputs.length) (hi' : i < psbt'.inputs.length),
        ∀ ws, (c10ExamplePsbt.inputs.get ⟨i, hi⟩).witness_script = some ws →
          (psbt'.inputs.get ⟨i, hi'⟩).final_script_witness =
            some ([[]] ++
              ((List.insertionSort sigLE
                (c10ExamplePsbt.inputs.get ⟨i, hi⟩).partial_sigs).take 2).map
                Prod.snd ++ [ws]) :=
  c10_no_signature_verification c10ExamplePsbt (by decide)

/-! ### Signer engine (`src/bin/signer.rs`)

The signer's cryptographic primitives (single-step BIP32 private-key
derivation from the already-path-rooted `xprv`, public-key recovery, BIP143
sighash, deterministic ECDSA) are opaque parameters collected in `SignerOps`;
every claim about the signer concerns only the control flow around them. -/

/-- Opaque cryptographic operations consumed by the signer loop.  Private keys
are opaque `Nat` handles. -/
structure SignerOps where
  deriveChild : Nat → Nat
  pubOf : Nat → Bytes
  sighash : Tx → Nat → Bytes → Nat → Bytes
  signEcdsa : Bytes → Nat → Bytes

/-- Failure modes of one signer run: the `ok_or(...)?` early returns of
`signer.rs` `main` (lines 151-154, 171-181), which the spec's taxonomy groups
as `MissingInputMetadata` (absent witness script or UTXO). -/
inductive SignerError where
  | emptyDerivationPath
  | missingWitnessScript
  | missingWitnessUtxo
  deriving DecidableEq

/-- The spec's `MissingInputMetadata` bucket: absent witness script or UTXO. -/
def SignerError.isMissingInputMetadata : SignerError → Prop
  | .missingWitnessScript => True
  | .missingWitnessUtxo => True
  | .emptyDerivationPath => False

/-- The fingerprint scan of `signer.rs` lines 129-138: first `bip32_derivation`
entry (in map iteration order) whose fingerprint equals the signer's, if any. -/
def findOurKey (myFp : Nat) : List (Bytes × Nat × List Nat) → Option (Bytes × List Nat)
  | [] => none
  | (pk, fp, path) :: rest => if fp = myFp then some (pk, path) else findOurKey myFp rest

/-- Model of `BTreeMap::insert` on an association list: overwrite the entry with the
same key if present, otherwise add one. -/
def insertAssoc {β : Type} (k : Bytes) (v : β) :
    List (Bytes × β) → List (Bytes × β)
  | [] => [(k, v)]
  | (k', v') :: rest => if k' = k then (k, v) :: rest else (k', v') :: insertAssoc k v rest

/-- One iteration of the signing loop (`signer.rs` lines 125-209) on input
`idx`: scan for our fingerprint (none ⇒ skip, `ok (inp, false)`); take the
last path component as the child index (empty path ⇒ error); derive and check
the key (mismatch ⇒ skip); require witness script and witness UTXO (absent ⇒
error, aborting the whole run); else compute the sighash, sign, and insert the
partial signature keyed by the derived public key. -/
def signInput (ops : SignerOps) (myFp : Nat) (tx : Tx) (idx : Nat) (inp : PsbtInput) :
    Except SignerError (PsbtInput × Bool) :=
  match findOurKey myFp inp.bip32_derivation with
  | none => .ok (inp, false)
  | some (targetPk, path) =>
    match path.getLast? with
    | none => .error .emptyDerivationPath
    | some childIndex =>
      let signingKey := ops.deriveChild childIndex
      let derivedPk := ops.pubOf signingKey
      if derivedPk = targetPk then
        match inp.witness_script with
        | none => .error .missingWitnessScript
        | some ws =>
          match inp.witness_utxo with
          | none => .error .missingWitnessUtxo
          | some utxo =>
            let digest := ops.sighash tx idx ws utxo.value
            let sig := ops.signEcdsa digest signingKey
            .ok ({ inp with partial_sigs := insertAssoc derivedPk sig inp.partial_sigs }, true)
      else .ok (inp, false)

/-- The signing loop over all inputs starting at index `k`, threading the
signed count; an error from any iteration aborts the whole run (the `?`
operator in `main`). -/
def signInputsFrom (ops : SignerOps) (myFp : Nat) (tx : Tx) :
    Nat → List PsbtInput → Except SignerError (List PsbtInput × Nat)
  | _, [] => .ok ([], 0)
  | k, inp :: rest =>
    match signInput ops myFp tx k inp with
    | .error e => .error e
    | .ok (inp', signed) =>
      match signInputsFrom ops myFp tx (k + 1) rest with
      | .error e => .error e
      | .ok (rest', n) => .ok (inp' :: rest', n + (if signed then 1 else 0))

/-- One whole signer invocation on a PSBT: run the loop over all inputs and
return the mutated PSBT together with the number of inputs signed. -/
def signerRun (ops : SignerOps) (myFp : Nat) (psbt : Psbt) :
    Except SignerError (Psbt × Nat) :=
  match signInputsFrom ops myFp psbt.unsigned_tx 0 psbt.inputs with
  | .error e => .error e
  | .ok (inputs, n) => .ok ({ psbt with inputs := inputs }, n)

/-- The fingerprint scan finds nothing when no entry carries the signer's
fingerprint. -/
theorem findOurKey_eq_none (myFp : Nat) (l : List (Bytes × Nat × List Nat))
    (h : ∀ e ∈ l, e.2.1 ≠ myFp) : findOurKey myFp l = none := by
  induction l with
  | nil => rfl
  | cons e rest ih =>
    obtain ⟨pk, fp, path⟩ := e
    have hfp : fp ≠ myFp := h (pk, fp, path) (by simp)
    simp only [findOurKey, if_neg hfp]
    exact ih (fun x hx => h x (by simp [hx]))

/-- C3: a signer whose fingerprint appears in no input's `bip32_derivation`
signs zero inputs and returns the PSBT unchanged (hence byte-identical once
serialized). -/
theorem c3_foreign_fingerprint_signs_nothing (ops : SignerOps) (myFp : Nat) (psbt : Psbt)
    (h : ∀ inp ∈ psbt.inputs, ∀ e ∈ inp.bip32_derivation, e.2.1 ≠ myFp) :
    signerRun ops myFp psbt = .ok (psbt, 0) := by
  have hloop : ∀ (k : Nat) (l : List PsbtInput),
      (∀ inp ∈ l, ∀ e ∈ inp.bip32_derivation, e.2.1 ≠ myFp) →
      signInputsFrom ops myFp psbt.unsigned_tx k l = .ok (l, 0) := by
    intro k l
    induction l generalizing k with
    | nil => intro _; rfl
    | cons inp rest ih =>
      intro hall
      have hskip : signInput ops myFp psbt.unsigned_tx k inp = .ok (inp, false) := by
        rw [signInput, findOurKey_eq_none myFp inp.bip32_derivation (hall inp (by simp))]
      simp [signInputsFrom, hskip, ih (k + 1) (fun x hx => hall x (by simp [hx]))]
  rw [signerRun, hloop 0 psbt.inputs h]

/-- Concrete PSBT used to witness C3: all derivation entries carry other
signers' fingerprints. -/
def c3ExamplePsbt : Psbt :=
  { unsigned_tx := { version := 2, lock_time := 0, input := [], output := [] }
    inputs :=
      [ { witness_utxo := some { value := 100, script_pubkey := [7] }
          witness_script := some [81]
          bip32_derivation := [([9], 5, [48, 0]), ([8], 6, [48, 0])]
          partial_sigs := []
          final_script_witness := none } ] }

/-- Example opaque crypto operations for the signer witnesses. -/
def exampleOps : SignerOps :=
  { deriveChild := fun n => n + 1000
    pubOf := fun k => [k % 256]
    sighash := fun _ idx ws v => idx :: v :: ws
    signEcdsa := fun digest k => k :: digest }

/-- Witness for C3: with fingerprint 42, absent from `c3ExamplePsbt`, the run
returns the PSBT unchanged and a signed count of zero. -/
theorem c3_foreign_fingerprint_signs_nothing_w :
    signerRun exampleOps 42 c3ExamplePsbt = .ok (c3ExamplePsbt, 0) :=
  c3_foreign_fingerprint_signs_nothing exampleOps 42 c3ExamplePsbt (by decide)

/-- An input that matched the signer's fingerprint and whose derived key
verified, but that lacks its witness script or witness UTXO, makes the signing
iteration error (at any loop index) with a missing-metadata failure. -/
theorem signInput_missing_metadata (ops : SignerOps) (myFp : Nat) (tx : Tx)
    (inp : PsbtInput) (pk : Bytes) (path : List Nat)
    (hfind : findOurKey myFp inp.bip32_derivation = some (pk, path))
    (ci : Nat) (hci : path.getLast? = some ci)
    (hver : ops.pubOf (ops.deriveChild ci) = pk)
    (hmiss : inp.witness_script = none ∨ inp.witness_utxo = none) :
    ∃ e, (∀ idx, signInput ops myFp tx idx inp = .error e) ∧
      e.isMissingInputMetadata := by
  cases hws : inp.witness_script with
  | none =>
    refine ⟨.missingWitnessScript, ?_, trivial⟩
    intro idx
    simp only [signInput, hfind, hci]
    rw [if_pos hver, hws]
  | some ws =>
    cases hu : inp.witness_utxo with
    | none =>
      refine ⟨.missingWitnessUtxo, ?_, trivial⟩
      intro idx
      simp only [signInput, hfind, hci]
      rw [if_pos hver, hws, hu]
    | some utxo =>
      rcases hmiss with hm | hm
      · exact absurd hws (by simp [hm])
      · exact absurd hu (by simp [hm])

/-- If every input before position `pre.length` signs or skips without error
and the input at that position errors, the whole loop errors. -/
theorem signInputsFrom_error_lift (ops : SignerOps) (myFp : Nat) (tx : Tx)
    (post : List PsbtInput) (inp : PsbtInput) (e : SignerError)
    (hbad : ∀ idx, signInput ops myFp tx idx inp = .error e) :
    ∀ (pre : List PsbtInput) (k : Nat),
      (∀ i (hi : i < pre.length),
        ∃ r, signInput ops myFp tx (k + i) (pre.get ⟨i, hi⟩) = .ok r) →
      signInputsFrom ops myFp tx k (pre ++ inp :: post) = .error e := by
  intro pre
  induction pre with
  | nil =>
    intro k _
    simp only [List.nil_append, signInputsFrom, hbad k]
  | cons p ps ih =>
    intro k hpre
    obtain ⟨r, hr⟩ := hpre 0 (by simp)
    rw [Nat.add_zero] at hr
    have hrec := ih (k + 1) (fun i hi => by
      have := hpre (i + 1) (by simpa using Nat.succ_lt_succ hi)
      rwa [show k + (i + 1) = k + 1 + i by omega] at this)
    have hr' : signInput ops myFp tx k p = .ok r := hr
    simp only [List.cons_append, signInputsFrom, hr', List.append_eq, hrec]

/-- C6: during signing, an input whose `bip32_derivation` matched the signer's
fingerprint and whose derived key verified, but whose witness script or
witness UTXO is absent, makes the whole sign operation fail with a
missing-input-metadata error (provided the preceding inputs sign or skip
without error); the run does not skip the input and continue. -/
theorem c6_missing_metadata_aborts (ops : SignerOps) (myFp : Nat) (psbt : Psbt)
    (pre post : List PsbtInput) (inp : PsbtInput)
    (hsplit : psbt.inputs = pre ++ inp :: post)
    (hpre : ∀ i (hi : i < pre.length),
      ∃ r, signInput ops myFp psbt.unsigned_tx i (pre.get ⟨i, hi⟩) = .ok r)
    (pk : Bytes) (path : List Nat)
    (hfind : findOurKey myFp inp.bip32_derivation = some (pk, path))
    (ci : Nat) (hci : path.getLast? = some ci)
    (hver : ops.pubOf (ops.deriveChild ci) = pk)
    (hmiss : inp.witness_script = none ∨ inp.witness_utxo = none) :
    ∃ e, signerRun ops myFp psbt = .error e ∧ e.isMissingInputMetadata := by
  obtain ⟨e, hbad, hmeta⟩ :=
    signInput_missing_metadata ops myFp psbt.unsigned_tx inp pk path hfind ci hci hver hmiss
  refine ⟨e, ?_, hmeta⟩
  have hloop := signInputsFrom_error_lift ops myFp psbt.unsigned_tx post inp e hbad pre 0
    (fun i hi => by rw [Nat.zero_add]; exact hpre i hi)
  rw [signerRun, hsplit, hloop]

/-- Concrete PSBT used to witness C6: the only input matches fingerprint 42,
its derived key verifies under `exampleOps`, but its witness script is
absent. -/
def c6ExamplePsbt : Psbt :=
  { unsigned_tx := { version := 2, lock_time := 0, input := [], output := [] }
    inputs :=
      [ { witness_utxo := some { value := 100, script_pubkey := [7] }
          witness_script := none
          bip32_derivation := [([239], 42, [0, 7])]
          partial_sigs := []
          final_script_witness := none } ] }

/-- Witness for C6: the run aborts with a missing-metadata error instead of
skipping the input. -/
theorem c6_missing_metadata_aborts_w :
    ∃ e, signerRun exampleOps 42 c6ExamplePsbt = .error e ∧
      e.isMissingInputMetadata :=
  c6_missing_metadata_aborts exampleOps 42 c6ExamplePsbt []
    [] { witness_utxo := some { value := 100, script_pubkey := [7] }
         witness_script := none
         bip32_derivation := [([239], 42, [0, 7])]
         partial_sigs := []
         final_script_witness := none }
    rfl (fun i hi => absurd hi (by simp)) [239] [0, 7] rfl 7 rfl rfl (Or.inl rfl)

/-! ### Wallet data model (`src/lib.rs`) and transaction assembler
(`src/bin/coordinator.rs`) -/

/-- Model of `XpubOrigin`: one cosigner's extended public key (an opaque handle), its
master fingerprint and its base derivation path (components as opaque
numbers). -/
structure XpubOrigin where
  xpub : Nat
  fingerprint : Nat
  derivation_path : List Nat
  deriving DecidableEq

/-- Association-list lookup, the counterpart of `BTreeMap` lookup for
`insertAssoc`. -/
def lookupAssoc {β : Type} (k : Bytes) : List (Bytes × β) → Option β
  | [] => none
  | (k', v) :: rest => if k' = k then some v else lookupAssoc k rest

/-- The `bip32_derivation` loop of `coordinator.rs` lines 152-171: for every
origin in the registry, derive its child public key at `idx` (the opaque
parameter `dp` models `xpub.derive_pub(secp, m/idx).public_key` serialized)
and insert an entry mapping it to `(origin.fingerprint,
origin.derivation_path ++ idx)` — the full path built by appending the
receive index to the origin's base path. -/
def addDerivations (dp : Nat → Nat → Bytes) (idx : Nat) :
    List XpubOrigin → List (Bytes × Nat × List Nat) → List (Bytes × Nat × List Nat)
  | [], m => m
  | o :: rest, m =>
    addDerivations dp idx rest
      (insertAssoc (dp o.xpub idx) (o.fingerprint, o.derivation_path ++ [idx]) m)

/-- The single PSBT input the coordinator assembles (`coordinator.rs` lines
137-171): witness UTXO and witness script attached, one `bip32_derivation`
entry per registry origin, no signatures yet. -/
def coordinatorInput (dp : Nat → Nat → Bytes) (origins : List XpubOrigin)
    (receiveIndex : Nat) (utxo : TxOut) (ws : Bytes) : PsbtInput :=
  { witness_utxo := some utxo
    witness_script := some ws
    bip32_derivation := addDerivations dp receiveIndex origins []
    partial_sigs := []
    final_script_witness := none }

theorem lookupAssoc_insertAssoc_self {β : Type} (k : Bytes) (v : β) :
    ∀ m : List (Bytes × β), lookupAssoc k (insertAssoc k v m) = some v := by
  intro m
  induction m with
  | nil => simp [insertAssoc, lookupAssoc]
  | cons e rest ih =>
    obtain ⟨k', v'⟩ := e
    by_cases hk : k' = k
    · simp [insertAssoc, lookupAssoc, hk]
    · simp [insertAssoc, lookupAssoc, hk, ih]

theorem lookupAssoc_insertAssoc_other {β : Type} (k k' : Bytes) (v : β)
    (hne : k' ≠ k) :
    ∀ m : List (Bytes × β), lookupAssoc k (insertAssoc k' v m) = lookupAssoc k m := by
  intro m
  induction m with
  | nil => simp [insertAssoc, lookupAssoc, hne]
  | cons e rest ih =>
    obtain ⟨k'', v''⟩ := e
    by_cases hk : k'' = k'
    · subst hk
      simp [insertAssoc, lookupAssoc, hne]
    · simp [insertAssoc, lookupAssoc, hk, ih]

theorem addDerivations_lookup_untouched (dp : Nat → Nat → Bytes) (idx : Nat)
    (k : Bytes) :
    ∀ (origins : List XpubOrigin) (m : List (Bytes × Nat × List Nat)),
      (∀ o ∈ origins, dp o.xpub idx ≠ k) →
      lookupAssoc k (addDerivations dp idx origins m) = lookupAssoc k m := by
  intro origins
  induction origins with
  | nil => intro m _; rfl
  | cons o rest ih =>
    intro m hne
    rw [addDerivations, ih _ (fun x hx => hne x (by simp [hx])),
      lookupAssoc_insertAssoc_other _ _ _ (hne o (by simp))]

/-- C4: when the coordinator assembles its PSBT input at signing index `i` and
the derived child public keys of the registry's origins are pairwise distinct,
the input's `bip32_derivation` map holds, for every origin of the registry, an
entry mapping that origin's child public key at `i` to the pair (origin's
master fingerprint, origin's base derivation path extended with `i`). -/
theorem c4_derivation_entry_for_every_origin (dp : Nat → Nat → Bytes)
    (origins : List XpubOrigin) (i : Nat) (utxo : TxOut) (ws : Bytes)
    (hinj : (origins.map (fun o => dp o.xpub i)).Nodup) :
    ∀ o ∈ origins,
      lookupAssoc (dp o.xpub i)
        (coordinatorInput dp origins i utxo ws).bip32_derivation =
        some (o.fingerprint, o.derivation_path ++ [i]) := by
  suffices hgen : ∀ (l : List XpubOrigin) (m : List (Bytes × Nat × List Nat)),
      (l.map (fun o => dp o.xpub i)).Nodup →
      ∀ o ∈ l, lookupAssoc (dp o.xpub i) (addDerivations dp i l m) =
        some (o.fingerprint, o.derivation_path ++ [i]) by
    intro o ho
    exact hgen origins [] hinj o ho
  intro l
  induction l with
  | nil => intro m _ o ho; exact absurd ho (by simp)
  | cons p rest ih =>
    intro m hnd o ho
    rw [List.map_cons, List.nodup_cons] at hnd
    rcases List.mem_cons.mp ho with rfl | ho'
    · rw [addDerivations,
        addDerivations_lookup_untouched dp i _ rest _
          (fun x hx heq => hnd.1 (by
            rw [← heq]
            exact List.mem_map_of_mem (fun o => dp o.xpub i) hx)),
        lookupAssoc_insertAssoc_self]
    · exact ih _ hnd.2 o ho'

/-- Concrete registry used to witness C4. -/
def c4ExampleOrigins : List XpubOrigin :=
  [ { xpub := 10, fingerprint := 1, derivation_path := [48, 1, 0, 2] },
    { xpub := 20, fingerprint := 2, derivation_path := [48, 1, 0, 2] },
    { xpub := 30, fingerprint := 3, derivation_path := [48, 1, 0, 2] } ]

/-- Witness for C4: with child keys `[xpub + i]`, the first origin (and
likewise each other) obtains its derivation entry at index 0. -/
theorem c4_derivation_entry_for_every_origin_w :
    lookupAssoc [10]
      (coordinatorInput (fun x i => [x + i]) c4ExampleOrigins 0
        { value := 100, script_pubkey := [7] } [81]).bip32_derivation =
      some (1, [48, 1, 0, 2, 0]) :=
  c4_derivation_entry_for_every_origin (fun x i => [x + i]) c4ExampleOrigins 0
    { value := 100, script_pubkey := [7] } [81] (by decide)
    { xpub := 10, fingerprint := 1, derivation_path := [48, 1, 0, 2] } (by decide)

/-- Subtraction of amounts: `Amount - Amount` in rust-bitcoin is `checked_sub(..).expect(..)`: it
panics (aborting the build) instead of wrapping around.  Modeled as `none` on
underflow. -/
def checkedSub (a b : Nat) : Option Nat := if b ≤ a then some (a - b) else none

/-- The transaction the coordinator builds (`coordinator.rs` lines 94-127):
change is `utxo.value - send_amount - fee` (left to right, each subtraction
aborting on underflow), the input spends the funding outpoint with the
RBF-enabled sequence, and the outputs are the destination then the change. -/
def buildUnsignedTx (utxo : TxOut) (sendAmount fee : Nat)
    (destScript changeScript : Bytes) : Option Tx :=
  match checkedSub utxo.value sendAmount with
  | none => none
  | some rest =>
    match checkedSub rest fee with
    | none => none
    | some changeAmount =>
      some { version := 2
             lock_time := 0
             input := [{ txid := 1, vout := 0, sequence := 4294967293 }]
             output := [ { value := sendAmount, script_pubkey := destScript },
                         { value := changeAmount, script_pubkey := changeScript } ] }

/-- C7: if the send amount plus the fee exceeds the input value, building the
unsigned transaction fails (the underflowing `Amount` subtraction panics)
rather than producing outputs; and whenever it succeeds the change output is a
genuine non-negative value balancing the transaction, never a wrapped-around
one. -/
theorem c7_change_never_underflows (utxo : TxOut) (sendAmount fee : Nat)
    (destScript changeScript : Bytes) :
    (utxo.value < sendAmount + fee →
      buildUnsignedTx utxo sendAmount fee destScript changeScript = none) ∧
    (∀ tx, buildUnsignedTx utxo sendAmount fee destScript changeScript = some tx →
      ∃ c, tx.output.map TxOut.value = [sendAmount, c] ∧
        c + (sendAmount + fee) = utxo.value) := by
  constructor
  · intro hlt
    by_cases h1 : sendAmount ≤ utxo.value
    · have h2 : ¬ fee ≤ utxo.value - sendAmount := by omega
      simp [buildUnsignedTx, checkedSub, h1, h2]
    · simp [buildUnsignedTx, checkedSub, h1]
  · intro tx htx
    by_cases h1 : sendAmount ≤ utxo.value
    · by_cases h2 : fee ≤ utxo.value - sendAmount
      · simp [buildUnsignedTx, checkedSub, h1, h2] at htx
        subst htx
        exact ⟨utxo.value - sendAmount - fee, rfl, by omega⟩
      · simp [buildUnsignedTx, checkedSub, h1, h2] at htx
    · simp [buildUnsignedTx, checkedSub, h1] at htx

/-- Witness for C7: spending 70 plus a fee of 40 out of a 100-value input
fails instead of wrapping around. -/
theorem c7_change_never_underflows_w :
    buildUnsignedTx { value := 100, script_pubkey := [7] } 70 40 [1] [2] = none :=
  (c7_change_never_underflows { value := 100, script_pubkey := [7] } 70 40 [1] [2]).1
    (by decide)

/-- The wallet descriptor, which `from_key_files` always builds as
`wsh(sortedmulti(2, ...))`: derivation at a (non-hardened) index yields the
inner sorted-multisig witness script, a pure function of the index. -/
structure WshDescriptor where
  innerScriptAt : Nat → Bytes

/-- miniscript's `ConversionError::HardenedChild`, the failure the spec calls
`InvalidDerivationIndex`. -/
inductive DeriveError where
  | invalidDerivationIndex
  deriving DecidableEq

/-- Model of `descriptor.at_derivation_index(index)`: a hardened index (`≥ 2^31`)
cannot replace the unhardened wildcard and is rejected; otherwise the derived
descriptor's inner script is produced. -/
def atDerivationIndex (d : WshDescriptor) (index : Nat) : Except DeriveError Bytes :=
  if index < 2 ^ 31 then .ok (d.innerScriptAt index) else .error .invalidDerivationIndex

/-- Model of `MultisigWallet::derive_address` (`lib.rs` lines 64-68): derive at the
index, hash the witness script into the P2WSH program (`h` models SHA-256 as
used by `script_pubkey`), and encode the network-tagged address.
`Address::from_script` always succeeds on a well-formed P2WSH script pubkey,
so the only failure is the hardened index. -/
def derive_address (h : Bytes → Bytes) (network : Nat) (d : WshDescriptor)
    (index : Nat) : Except DeriveError (Nat × Bytes) :=
  match atDerivationIndex d index with
  | .error e => .error e
  | .ok script => .ok (network, h script)

/-- Model of `MultisigWallet::witness_script` (`lib.rs` lines 70-77): derive at the
index and return the inner script; the descriptor is always `Wsh`, so the
non-`Wsh` branch is unreachable. -/
def witness_script (d : WshDescriptor) (index : Nat) : Except DeriveError Bytes :=
  match atDerivationIndex d index with
  | .error e => .error e
  | .ok script => .ok script

/-- C8: for every hardened index (`≥ 2^31`) both `derive_address` and
`witness_script` fail with the invalid-derivation-index error; for every
non-hardened index both succeed, and (the model being a pure function of
registry and index) two calls with the same arguments yield byte-identical
script and address. -/
theorem c8_hardened_rejected (h : Bytes → Bytes) (network : Nat)
    (d : WshDescriptor) (index : Nat) :
    (2 ^ 31 ≤ index →
      derive_address h network d index = .error .invalidDerivationIndex ∧
      witness_script d index = .error .invalidDerivationIndex) ∧
    (index < 2 ^ 31 →
      derive_address h network d index = .ok (network, h (d.innerScriptAt index)) ∧
      witness_script d index = .ok (d.innerScriptAt index) ∧
      derive_address h network d index = derive_address h network d index ∧
      witness_script d index = witness_script d index) := by
  constructor
  · intro hge
    have hnot : ¬ index < 2 ^ 31 := by omega
    rw [derive_address, witness_script, atDerivationIndex, if_neg hnot]
    exact ⟨rfl, rfl⟩
  · intro hlt
    rw [derive_address, witness_script, atDerivationIndex, if_pos hlt]
    exact ⟨rfl, rfl, rfl, rfl⟩

/-- Witness for C8: index `2^31` (the first hardened index) is rejected by
both entry points, and index 0 succeeds on both. -/
theorem c8_hardened_rejected_w :
    (derive_address (fun b => 0 :: b) 0 { innerScriptAt := fun i => [i] } (2 ^ 31) =
        .error .invalidDerivationIndex ∧
      witness_script { innerScriptAt := fun i => [i] } (2 ^ 31) =
        .error .invalidDerivationIndex) ∧
    (derive_address (fun b => 0 :: b) 0 { innerScriptAt := fun i => [i] } 0 =
        .ok (0, [0, 0]) ∧
      witness_script { innerScriptAt := fun i => [i] } 0 = .ok [0]) :=
  ⟨(c8_hardened_rejected (fun b => 0 :: b) 0 { innerScriptAt := fun i => [i] }
      (2 ^ 31)).1 (Nat.le_refl _),
    ⟨((c8_hardened_rejected (fun b => 0 :: b) 0 { innerScriptAt := fun i => [i] }
        0).2 (by norm_num)).1,
      ((c8_hardened_rejected (fun b => 0 :: b) 0 { innerScriptAt := fun i => [i] }
        0).2 (by norm_num)).2.1⟩⟩

/-- Model of `KeyData` as parsed from one key file (`lib.rs` lines 10-17): opaque
handles for the string fields. -/
structure KeyData where
  name : Nat
  xprv : Nat
  xpub : Nat
  fingerprint : Nat
  derivation_path : List Nat
  deriving DecidableEq

/-- Model of `MultisigWallet` (`lib.rs` lines 26-32): the parsed
`wsh(sortedmulti(2, part, part, part))` descriptor is carried as its threshold
and its key parts. -/
structure MultisigWallet where
  descriptorThreshold : Nat
  descriptorKeys : List Nat
  network : Nat
  threshold : Nat
  xpub_origins : List XpubOrigin
  deriving DecidableEq

/-- Model of `MultisigWallet::from_key_files` (`lib.rs` lines 35-62) on already-parsed
key records: reject anything but exactly 3 key sources, then build the origin
list, the `sortedmulti(2, ...)` descriptor and a fixed threshold of 2.  No
check relates the three fingerprints to each other. -/
def from_key_files (keys : List KeyData) (network : Nat) :
    Except String MultisigWallet :=
  if keys.length ≠ 3 then .error "expected 3 key files"
  else .ok
    { descriptorThreshold := 2
      descriptorKeys := keys.map KeyData.xpub
      network := network
      threshold := 2
      xpub_origins :=
        keys.map (fun k => { xpub := k.xpub, fingerprint := k.fingerprint,
                             derivation_path := k.derivation_path }) }

/-- Counterexample to C9 as stated: construction succeeds on three key records
two of which share the fingerprint 7, so the produced wallet violates the
claimed pairwise-distinct-fingerprints invariant. -/
theorem c9_distinct_fingerprints_counterexample :
    from_key_files
        [ { name := 0, xprv := 0, xpub := 10, fingerprint := 7, derivation_path := [48] },
          { name := 1, xprv := 1, xpub := 20, fingerprint := 7, derivation_path := [48] },
          { name := 2, xprv := 2, xpub := 30, fingerprint := 9, derivation_path := [48] } ]
        0 =
      .ok
        { descriptorThreshold := 2
          descriptorKeys := [10, 20, 30]
          network := 0
          threshold := 2
          xpub_origins :=
            [ { xpub := 10, fingerprint := 7, derivation_path := [48] },
              { xpub := 20, fingerprint := 7, derivation_path := [48] },
              { xpub := 30, fingerprint := 9, derivation_path := [48] } ] } ∧
    ¬ List.Nodup (List.map XpubOrigin.fingerprint
        [ { xpub := 10, fingerprint := 7, derivation_path := [48] },
          { xpub := 20, fingerprint := 7, derivation_path := [48] },
          { xpub := 30, fingerprint := 9, derivation_path := [48] } ]) := by
  constructor
  · rfl
  · decide

/-- C9 (amended): construction from key files yields exactly 3 origins and
threshold 2 with `1 ≤ T ≤ N`, and fails when a different number of key
sources is supplied; but the origins' fingerprints are taken from the key
files unchecked — they are pairwise distinct only if the supplied ones were
(the code performs no distinctness check). -/
theorem c9_construction_invariant (keys : List KeyData) (network : Nat) :
    (keys.length ≠ 3 → ∃ e, from_key_files keys network = .error e) ∧
    (∀ w, from_key_files keys network = .ok w →
      w.xpub_origins.length = 3 ∧ w.threshold = 2 ∧
      1 ≤ w.threshold ∧ w.threshold ≤ w.xpub_origins.length ∧
      w.xpub_origins.map XpubOrigin.fingerprint = keys.map KeyData.fingerprint) := by
  constructor
  · intro hne
    exact ⟨"expected 3 key files", by rw [from_key_files, if_pos hne]⟩
  · intro w hw
    by_cases hlen : keys.length ≠ 3
    · rw [from_key_files, if_pos hlen] at hw
      exact absurd hw (by simp)
    · rw [from_key_files, if_neg hlen] at hw
      cases hw
      push_neg at hlen
      refine ⟨?_, rfl, ?_, ?_, ?_⟩
      · simp [hlen]
      · simp
      · simp [hlen]
      · simp [List.map_map]

/-- Concrete key records with pairwise distinct fingerprints, witnessing the
amended C9. -/
def c9ExampleKeys : List KeyData :=
  [ { name := 0, xprv := 0, xpub := 10, fingerprint := 1, derivation_path := [48] },
    { name := 1, xprv := 1, xpub := 20, fingerprint := 2, derivation_path := [48] },
    { name := 2, xprv := 2, xpub := 30, fingerprint := 3, derivation_path := [48] } ]

/-- The wallet `from_key_files` builds from `c9ExampleKeys`. -/
def c9ExampleWallet : MultisigWallet :=
  { descriptorThreshold := 2
    descriptorKeys := [10, 20, 30]
    network := 0
    threshold := 2
    xpub_origins :=
      [ { xpub := 10, fingerprint := 1, derivation_path := [48] },
        { xpub := 20, fingerprint := 2, derivation_path := [48] },
        { xpub := 30, fingerprint := 3, derivation_path := [48] } ] }

/-- Witness for the amended C9. -/
theorem c9_construction_invariant_w :
    c9ExampleWallet.xpub_origins.length = 3 ∧ c9ExampleWallet.threshold = 2 ∧
    1 ≤ c9ExampleWallet.threshold ∧
    c9ExampleWallet.threshold ≤ c9ExampleWallet.xpub_origins.length ∧
    c9ExampleWallet.xpub_origins.map XpubOrigin.fingerprint =
      c9ExampleKeys.map KeyData.fingerprint :=
  (c9_construction_invariant c9ExampleKeys 0).2 c9ExampleWallet rfl

end PsbtModel
